import Mathlib

/-!
Shallow embedding of the notes-crud-api core: the create-payload validator
(`src/middleware/validateNote.js`), the `Note` entity (`src/models/Note.js`),
the `NotesService` store (`src/services/notesService.js`) and the route
handlers (`src/routes/notes.js`).

Conventions of the embedding:
* JS strings are `List Char`; `String.prototype.trim` is `jsTrim`.
* JS timestamps (`new Date().toISOString()`) are `Nat` values drawn from an
  abstract clock `Env.clock : Nat → Nat` indexed by the number of `new Date()`
  calls made so far (`ServiceState.dateCalls`); ISO-8601 formatting at
  millisecond precision is injective, so timestamp-string equality is
  modelled as equality of the sampled clock values.
* `uuidv4()` is an abstract generator `Env.uuid : Nat → Nat` indexed by the
  number of uuid calls so far.
* Request-body fields after destructuring (`const { title, content } = req.body`)
  are `Option JsValue`: `none` is an absent key (JSON bodies cannot carry
  `undefined` values, so absent and `undefined` coincide).
* A JS runtime `TypeError` (calling `.trim()` on a truthy non-string) is the
  explicit error `ServiceError.typeError`.
-/

/-- A JSON value as it can appear in a request-body field. -/
inductive JsValue where
  | str : List Char → JsValue
  | null : JsValue
  | bool : Bool → JsValue
  | num : Int → JsValue
deriving DecidableEq, Repr

/-- JS truthiness of a destructured body field (`none` = absent/undefined). -/
def truthy : Option JsValue → Bool
  | none => false
  | some (.str s) => !s.isEmpty
  | some .null => false
  | some (.bool b) => b
  | some (.num n) => n != 0

/-- The ECMAScript `TrimString` whitespace set (WhiteSpace ∪ LineTerminator),
by code point. -/
def isJsSpace (c : Char) : Bool :=
  [9, 10, 11, 12, 13, 32, 160, 0x1680, 0x2000, 0x2001, 0x2002, 0x2003, 0x2004,
   0x2005, 0x2006, 0x2007, 0x2008, 0x2009, 0x200A, 0x2028, 0x2029, 0x202F,
   0x205F, 0x3000, 0xFEFF].contains c.toNat

/-- `String.prototype.trim`: strip leading and trailing whitespace. -/
def jsTrim (s : List Char) : List Char :=
  ((s.dropWhile isJsSpace).reverse.dropWhile isJsSpace).reverse

/-- A parsed JSON request body, as seen through the destructuring
`const { title, content } = req.body`: the two fields the code reads, plus
the number of other keys (only the total key count is ever inspected, by the
empty-body check `Object.keys(req.body).length === 0`). -/
structure Payload where
  title : Option JsValue
  content : Option JsValue
  otherKeys : Nat
deriving DecidableEq, Repr

/-- `Object.keys(req.body).length`. -/
def Payload.keyCount (p : Payload) : Nat :=
  p.otherKeys + (if p.title.isSome then 1 else 0) + (if p.content.isSome then 1 else 0)

/-- The five rejection cases of `validateNote` (create-path middleware). -/
inductive ValidationError where
  | emptyBody
  | invalidTitle
  | invalidContent
  | titleTooLong
  | contentTooLong
deriving DecidableEq, Repr

/-- One field-validity test of `validateNote`:
`!field || typeof field !== 'string' || field.trim().length === 0`. -/
def invalidField (v : Option JsValue) : Bool :=
  !truthy v ||
    (match v with
     | some (.str s) => (jsTrim s).isEmpty
     | _ => true)

/-- `field.trim().length` as evaluated by the length checks of `validateNote`
(those checks run only after the field is known to be a string). -/
def fieldTrimLen : Option JsValue → Nat
  | some (.str s) => (jsTrim s).length
  | _ => 0

/-- `validateNote` from `src/middleware/validateNote.js`: the create-path
validator, returning the first rejection (as its middleware response) or
`none` when the request passes to the route handler. -/
def validateNote (p : Payload) : Option ValidationError :=
  if p.keyCount == 0 then some .emptyBody
  else if invalidField p.title then some .invalidTitle
  else if invalidField p.content then some .invalidContent
  else if 200 < fieldTrimLen p.title then some .titleTooLong
  else if 5000 < fieldTrimLen p.content then some .contentTooLong
  else none

/-- The spec's ordered list of create checks: empty-body, then title
presence/type/non-empty, then content presence/type/non-empty, then title
length, then content length. -/
def createChecks (p : Payload) : List (Bool × ValidationError) :=
  [(p.keyCount == 0, .emptyBody),
   (invalidField p.title, .invalidTitle),
   (invalidField p.content, .invalidContent),
   (decide (200 < fieldTrimLen p.title), .titleTooLong),
   (decide (5000 < fieldTrimLen p.content), .contentTooLong)]

/-- Specification-side validator: report the error of the first failing check
in the fixed order, and nothing when no check fails. -/
def validateNoteSpec (p : Payload) : Option ValidationError :=
  ((createChecks p).find? (fun ce => ce.1)).map (fun ce => ce.2)

example : validateNote ⟨some (.str "  hi  ".data), some (.str "x".data), 0⟩ = none := by decide
example : validateNote ⟨none, none, 0⟩ = some .emptyBody := by decide
example : validateNote ⟨some (.str "   ".data), some (.str "x".data), 1⟩ =
    some .invalidTitle := by decide
example : validateNote ⟨some (.num 3), some (.str "x".data), 0⟩ =
    some .invalidTitle := by decide

/-- The `Note` entity of `src/models/Note.js`. Timestamps are the sampled
clock values (see the header comment). -/
structure Note where
  id : Nat
  title : List Char
  content : List Char
  createdAt : Nat
  updatedAt : Nat
deriving DecidableEq, Repr

/-- The nondeterministic environment: the wall clock sampled at each
`new Date()` call, and the uuid generator sampled at each `uuidv4()` call. -/
structure Env where
  clock : Nat → Nat
  uuid : Nat → Nat

/-- The `NotesService` singleton state: the `notes` array plus the two
environment-call counters. -/
structure ServiceState where
  notes : List Note
  dateCalls : Nat
  uuidCalls : Nat
deriving DecidableEq, Repr

/-- The empty store `new NotesService()` before any call. -/
def ServiceState.initial : ServiceState := ⟨[], 0, 0⟩

/-- The errors thrown by `NotesService` (plus the runtime `TypeError` raised
by calling `.trim()` on a truthy non-string value). -/
inductive ServiceError where
  | requiredFields
  | notFound
  | noFieldsProvided
  | typeError
deriving DecidableEq, Repr

/-- What a `NotesService` method hands back to its caller: either the live
`Note` object itself (`this.notes.push(note); return note` — identified by
its index in the `notes` array at return time), or a fresh `toJSON()` copy of
the field values. -/
inductive RetVal where
  | ref : Nat → RetVal
  | snapshot : Note → RetVal
deriving DecidableEq, Repr

/-- `Note.prototype.update`: overwrite each field that is not `undefined`
with the (already trimmed) value, and unconditionally restamp `updatedAt`
from one `new Date()` call. -/
def Note.applyUpdate (n : Note) (title content : Option (List Char)) (now : Nat) : Note :=
  { n with
    title := title.getD n.title
    content := content.getD n.content
    updatedAt := now }

/-- `field?.trim()` as evaluated on an update argument: absent and `null`
short-circuit to `undefined`, strings are trimmed, and a truthy non-string
raises `TypeError` (`.trim` is not a function). `false` and `0` also reach
the method call and raise, but `updateNote`'s truthiness guard means those
values never do so with the other field truthy-free; the raising cases are
kept faithful regardless. -/
def optTrim : Option JsValue → Except ServiceError (Option (List Char))
  | none => .ok none
  | some .null => .ok none
  | some (.str s) => .ok (some (jsTrim s))
  | some (.bool _) => .error .typeError
  | some (.num _) => .error .typeError

/-- `NotesService.createNote(title, content)`: guard on truthiness of both
arguments, build `new Note(title.trim(), content.trim())` (two `new Date()`
calls, one `uuidv4()` call), push it, and return the pushed object itself. -/
def createNote (env : Env) (s : ServiceState) (title content : Option JsValue) :
    Except ServiceError (RetVal × ServiceState) :=
  if !truthy title || !truthy content then .error .requiredFields
  else
    match title, content with
    | some (.str t), some (.str c) =>
      let note : Note :=
        { id := env.uuid s.uuidCalls
          title := jsTrim t
          content := jsTrim c
          createdAt := env.clock s.dateCalls
          updatedAt := env.clock (s.dateCalls + 1) }
      .ok (.ref s.notes.length,
           { notes := s.notes ++ [note]
             dateCalls := s.dateCalls + 2
             uuidCalls := s.uuidCalls + 1 })
    | _, _ => .error .typeError

/-- `NotesService.getAllNotes()`: `this.notes.map(note => note.toJSON())`. -/
def getAllNotes (s : ServiceState) : List RetVal :=
  s.notes.map (fun n => .snapshot n)

/-- `NotesService.getNoteById(id)`: first `find` match or throw. -/
def getNoteById (s : ServiceState) (id : Nat) : Except ServiceError RetVal :=
  match s.notes.find? (fun n => n.id == id) with
  | none => .error .notFound
  | some n => .ok (.snapshot n)

/-- Rewrite the first element satisfying `p` in place (the effect of mutating
the object that `this.notes.find` returned). -/
def updateFirst (p : Note → Bool) (f : Note → Note) : List Note → List Note
  | [] => []
  | n :: ns => if p n then f n :: ns else n :: updateFirst p f ns

/-- `NotesService.updateNote(id, title, content)`: find or throw `NotFound`;
throw `NoFieldsProvided` when both arguments are falsy; otherwise call
`note.update(title?.trim(), content?.trim())` (one `new Date()` call) and
return `note.toJSON()`. -/
def updateNote (env : Env) (s : ServiceState) (id : Nat) (title content : Option JsValue) :
    Except ServiceError (RetVal × ServiceState) :=
  match s.notes.find? (fun n => n.id == id) with
  | none => .error .notFound
  | some note =>
    if !truthy title && !truthy content then .error .noFieldsProvided
    else
      match optTrim title with
      | .error e => .error e
      | .ok t =>
        match optTrim content with
        | .error e => .error e
        | .ok c =>
          let upd := Note.applyUpdate note t c (env.clock s.dateCalls)
          .ok (.snapshot upd,
               { s with
                 notes := updateFirst (fun n => n.id == id)
                   (fun n => Note.applyUpdate n t c (env.clock s.dateCalls)) s.notes
                 dateCalls := s.dateCalls + 1 })

/-- Remove the first element satisfying `p`, returning it together with the
survivors in order (`findIndex` + `splice(index, 1)[0]`). -/
def removeFirst (p : Note → Bool) : List Note → Option (Note × List Note)
  | [] => none
  | n :: ns =>
    if p n then some (n, ns)
    else (removeFirst p ns).map (fun r => (r.1, n :: r.2))

/-- `NotesService.deleteNote(id)`: `findIndex` or throw; `splice` out the
entry and return its `toJSON()`. -/
def deleteNote (s : ServiceState) (id : Nat) : Except ServiceError (RetVal × ServiceState) :=
  match removeFirst (fun n => n.id == id) s.notes with
  | none => .error .notFound
  | some (n, rest) => .ok (.snapshot n, { s with notes := rest })

/-- An error surfaced by a route: a validator rejection (middleware response)
or a service throw caught by the route's `catch`/`errorHandler`. -/
inductive ApiError where
  | validation : ValidationError → ApiError
  | service : ServiceError → ApiError
deriving DecidableEq, Repr

/-- `POST /notes`: `validateNote` middleware, then `createNote` on the
destructured body fields. A thrown error leaves the store as it was. -/
def postRoute (env : Env) (s : ServiceState) (p : Payload) :
    Except ApiError RetVal × ServiceState :=
  match validateNote p with
  | some e => (.error (.validation e), s)
  | none =>
    match createNote env s p.title p.content with
    | .error e => (.error (.service e), s)
    | .ok (r, s2) => (.ok r, s2)

/-- `PUT /notes/:id`: no validation middleware — the destructured body fields
go straight to `updateNote`. -/
def putRoute (env : Env) (s : ServiceState) (id : Nat) (p : Payload) :
    Except ApiError RetVal × ServiceState :=
  match updateNote env s id p.title p.content with
  | .error e => (.error (.service e), s)
  | .ok (r, s2) => (.ok r, s2)

/-- `DELETE /notes/:id`. -/
def delRoute (s : ServiceState) (id : Nat) : Except ApiError RetVal × ServiceState :=
  match deleteNote s id with
  | .error e => (.error (.service e), s)
  | .ok (r, s2) => (.ok r, s2)

/-- The caller-side assignment `ret.title = t` on a value a service method
returned: through a live reference it writes the store's own record; on a
`toJSON()` copy it only changes the copy, so the store is untouched. -/
def setTitleAt (i : Nat) (t : List Char) : List Note → List Note
  | [] => []
  | n :: ns =>
    match i with
    | 0 => { n with title := t } :: ns
    | j + 1 => n :: setTitleAt j t ns

/-- Effect on the store of mutating a returned value (see `setTitleAt`). -/
def assignTitle (r : RetVal) (t : List Char) (s : ServiceState) : ServiceState :=
  match r with
  | .ref i => { s with notes := setTitleAt i t s.notes }
  | .snapshot _ => s

/-- States reachable from the empty store through the public HTTP surface
(`POST /notes`, `PUT /notes/:id`, `DELETE /notes/:id`; `GET` routes do not
change state), under a fixed environment. -/
inductive Reachable (env : Env) : ServiceState → Prop where
  | init : Reachable env ServiceState.initial
  | post (p : Payload) {s : ServiceState} :
      Reachable env s → Reachable env (postRoute env s p).2
  | put (id : Nat) (p : Payload) {s : ServiceState} :
      Reachable env s → Reachable env (putRoute env s id p).2
  | del (id : Nat) {s : ServiceState} :
      Reachable env s → Reachable env (delRoute s id).2

example :
    (postRoute ⟨fun n => n, fun n => n⟩ ServiceState.initial
      ⟨some (.str " A ".data), some (.str "B".data), 0⟩).2 =
    ⟨[⟨0, "A".data, "B".data, 0, 1⟩], 2, 1⟩ := by decide

/-! ### Supporting lemmas -/

theorem jsTrim_eq_rdrop (s : List Char) :
    jsTrim s = List.rdropWhile isJsSpace (s.dropWhile isJsSpace) := rfl

theorem dropWhile_head_false (p : Char → Bool) :
    ∀ (l : List Char) (x : Char) (xs : List Char), l.dropWhile p = x :: xs → p x = false := by
  intro l
  induction l with
  | nil => intro x xs h; simp at h
  | cons b bs ih =>
    intro x xs h
    by_cases hb : p b
    · rw [List.dropWhile_cons] at h
      simp [hb] at h
      exact ih x xs h
    · rw [List.dropWhile_cons] at h
      simp [hb] at h
      rcases h with ⟨h1, _⟩
      simp [← h1]
      simpa using hb

/-- Trimming is idempotent: stored values of the form `x.trim()` are left
unchanged by a further trim. -/
theorem jsTrim_idem (s : List Char) : jsTrim (jsTrim s) = jsTrim s := by
  rw [jsTrim_eq_rdrop, jsTrim_eq_rdrop]
  have h1 : List.dropWhile isJsSpace (List.rdropWhile isJsSpace (s.dropWhile isJsSpace)) =
      List.rdropWhile isJsSpace (s.dropWhile isJsSpace) := by
    cases hr : List.rdropWhile isJsSpace (s.dropWhile isJsSpace) with
    | nil => simp
    | cons y ys =>
      obtain ⟨t, ht⟩ := List.rdropWhile_prefix isJsSpace (s.dropWhile isJsSpace)
      rw [hr] at ht
      have hy : isJsSpace y = false := by
        apply dropWhile_head_false isJsSpace s y (ys ++ t)
        rw [← ht]
        simp
      simp [List.dropWhile_cons, hy]
  rw [h1, List.rdropWhile_idempotent]

theorem jsTrim_replicate (n : Nat) (c : Char) (h : isJsSpace c = false) :
    jsTrim (List.replicate n c) = List.replicate n c := by
  have hd : ∀ m, List.dropWhile isJsSpace (List.replicate m c) = List.replicate m c := by
    intro m
    cases m with
    | zero => simp
    | succ k => simp [List.replicate_succ, List.dropWhile_cons, h]
  rw [jsTrim, hd, List.reverse_replicate, hd, List.reverse_replicate]

theorem updateFirst_of_find? (p : Note → Bool) (f : Note → Note) :
    ∀ {l : List Note} {a : Note}, l.find? p = some a →
      ∃ l₁ l₂, l = l₁ ++ a :: l₂ ∧ (∀ x ∈ l₁, p x = false) ∧
        updateFirst p f l = l₁ ++ f a :: l₂ := by
  intro l
  induction l with
  | nil => intro a h; simp at h
  | cons n ns ih =>
    intro a h
    by_cases hn : p n
    · rw [List.find?_cons_of_pos _ hn] at h
      cases h
      exact ⟨[], ns, by simp, by simp, by simp [updateFirst, hn]⟩
    · rw [List.find?_cons_of_neg _ hn] at h
      obtain ⟨l₁, l₂, hsplit, hnone, hupd⟩ := ih h
      refine ⟨n :: l₁, l₂, by simp [hsplit], ?_, ?_⟩
      · intro x hx
        rcases List.mem_cons.mp hx with rfl | hx
        · simpa using hn
        · exact hnone x hx
      · simp [updateFirst, hn, hupd]

theorem mem_updateFirst (p : Note → Bool) (f : Note → Note) :
    ∀ {l : List Note} {x : Note}, x ∈ updateFirst p f l →
      x ∈ l ∨ ∃ a, a ∈ l ∧ x = f a := by
  intro l
  induction l with
  | nil => intro x h; simp [updateFirst] at h
  | cons n ns ih =>
    intro x h
    by_cases hn : p n
    · simp only [updateFirst, hn, if_true] at h
      rcases List.mem_cons.mp h with rfl | hx
      · exact Or.inr ⟨n, List.mem_cons_self n ns, rfl⟩
      · exact Or.inl (List.mem_cons_of_mem n hx)
    · simp only [updateFirst, hn, if_false] at h
      rcases List.mem_cons.mp h with rfl | hx
      · exact Or.inl (List.mem_cons_self x ns)
      · rcases ih hx with hmem | ⟨a, ha, rfl⟩
        · exact Or.inl (List.mem_cons_of_mem n hmem)
        · exact Or.inr ⟨a, List.mem_cons_of_mem n ha, rfl⟩

theorem removeFirst_eq_some (p : Note → Bool) :
    ∀ {l : List Note} {n : Note} {rest : List Note}, removeFirst p l = some (n, rest) →
      ∃ l₁ l₂, l = l₁ ++ n :: l₂ ∧ rest = l₁ ++ l₂ ∧
        (∀ x ∈ l₁, p x = false) ∧ p n = true := by
  intro l
  induction l with
  | nil => intro n rest h; simp [removeFirst] at h
  | cons m ms ih =>
    intro n rest h
    by_cases hm : p m
    · simp only [removeFirst, hm, if_true, Option.some.injEq, Prod.mk.injEq] at h
      obtain ⟨rfl, rfl⟩ := h
      exact ⟨[], ms, by simp, by simp, by simp, hm⟩
    · simp only [removeFirst, hm, Bool.false_eq_true, if_false] at h
      cases hrec : removeFirst p ms with
      | none => rw [hrec] at h; simp at h
      | some r =>
        rw [hrec] at h
        obtain ⟨n2, rest2⟩ := r
        simp only [Option.map_some', Option.some.injEq, Prod.mk.injEq] at h
        obtain ⟨rfl, rfl⟩ := h
        obtain ⟨l₁, l₂, hsplit, hrest, hnone, hp⟩ := ih hrec
        refine ⟨m :: l₁, l₂, by simp [hsplit], by simp [hrest], ?_, hp⟩
        intro x hx
        rcases List.mem_cons.mp hx with rfl | hx
        · simpa using hm
        · exact hnone x hx

theorem removeFirst_eq_none (p : Note → Bool) :
    ∀ {l : List Note}, (∀ x ∈ l, p x = false) → removeFirst p l = none := by
  intro l
  induction l with
  | nil => intro _; rfl
  | cons m ms ih =>
    intro h
    have hm : p m = false := h m (List.mem_cons_self m ms)
    simp [removeFirst, hm, ih (fun x hx => h x (List.mem_cons_of_mem m hx))]

theorem invalidField_eq_false {v : Option JsValue} (h : invalidField v = false) :
    ∃ s, v = some (.str s) ∧ s ≠ [] ∧ jsTrim s ≠ [] := by
  match v with
  | none => simp [invalidField, truthy] at h
  | some .null => simp [invalidField, truthy] at h
  | some (.bool b) => simp [invalidField, truthy] at h
  | some (.num n) => simp [invalidField, truthy] at h
  | some (.str s) =>
    simp only [invalidField, truthy, Bool.or_eq_false_iff, Bool.not_eq_false] at h
    exact ⟨s, rfl, by simpa using h.1, by simpa [List.isEmpty_iff] using h.2⟩

theorem validateNote_none_fields {p : Payload} (h : validateNote p = none) :
    invalidField p.title = false ∧ invalidField p.content = false := by
  by_cases h1 : p.keyCount == 0 <;> by_cases h2 : invalidField p.title <;>
    by_cases h3 : invalidField p.content <;>
      simp [validateNote, h1, h2, h3] at h ⊢

/-! ### Concrete fixtures shared by witnesses and counterexamples -/

/-- A deterministic environment: the n-th `new Date()` call returns time `n`
(a strictly advancing millisecond clock) and the n-th `uuidv4()` call returns
identifier `n` (fresh ids, as uuid v4 provides in practice). -/
def idEnv : Env := ⟨fun n => n, fun n => n⟩

/-- A live note as `createNote(' A ', 'B')` stores it at time 0 with id 7. -/
def wNoteA : Note := ⟨7, "A".data, "B".data, 0, 1⟩

/-- A store holding exactly `wNoteA`. -/
def wStateA : ServiceState := ⟨[wNoteA], 2, 1⟩

/-! ### Claims -/

/-- C6: for every create payload, `validateNote` evaluates its checks in the
fixed order empty-body, title presence/type/non-emptiness, content
presence/type/non-emptiness, title length, content length, and reports the
error of the first failing check (`validateNoteSpec` is exactly
"first failing check of the ordered list wins"). -/
theorem validateNote_order (p : Payload) : validateNote p = validateNoteSpec p := by
  by_cases h1 : p.keyCount == 0 <;> by_cases h2 : invalidField p.title <;>
    by_cases h3 : invalidField p.content <;>
      by_cases h4 : 200 < fieldTrimLen p.title <;>
        by_cases h5 : 5000 < fieldTrimLen p.content <;>
          simp [validateNote, validateNoteSpec, createChecks, List.find?, h1, h2, h3, h4, h5]

/-- Evaluation of `validateNote` on a two-string payload whose fields are
non-empty before and after trimming: only the two length checks remain. -/
theorem validateNote_strings (t c : List Char)
    (ht0 : t ≠ []) (hc0 : c ≠ []) (htt : jsTrim t ≠ []) (hct : jsTrim c ≠ []) :
    validateNote ⟨some (.str t), some (.str c), 0⟩ =
      if 200 < (jsTrim t).length then some .titleTooLong
      else if 5000 < (jsTrim c).length then some .contentTooLong
      else none := by
  have h1 : (Payload.keyCount ⟨some (.str t), some (.str c), 0⟩ == 0) = false := by
    simp [Payload.keyCount]
  have h2 : invalidField (some (.str t)) = false := by
    simp [invalidField, truthy, List.isEmpty_iff, ht0, htt]
  have h3 : invalidField (some (.str c)) = false := by
    simp [invalidField, truthy, List.isEmpty_iff, hc0, hct]
  simp only [validateNote, h1, h2, h3, fieldTrimLen, Bool.false_eq_true, if_false]

theorem replicate_a_ne_nil (k : Nat) (hk : 0 < k) : List.replicate k 'a' ≠ [] := by
  intro h
  have := congrArg List.length h
  simp only [List.length_replicate, List.length_nil] at this
  omega

/-- C7: a title of exactly 200 trimmed characters passes `validateNote` while
201 characters is rejected with `TitleTooLong`; a content of exactly 5000
trimmed characters passes while 5001 is rejected with `ContentTooLong`. -/
theorem validateNote_boundaries :
    validateNote ⟨some (.str (List.replicate 200 'a')), some (.str "x".data), 0⟩ = none ∧
    validateNote ⟨some (.str (List.replicate 201 'a')), some (.str "x".data), 0⟩ =
      some .titleTooLong ∧
    validateNote ⟨some (.str "x".data), some (.str (List.replicate 5000 'a')), 0⟩ = none ∧
    validateNote ⟨some (.str "x".data), some (.str (List.replicate 5001 'a')), 0⟩ =
      some .contentTooLong := by
  have hrep : ∀ k : Nat, jsTrim (List.replicate k 'a') = List.replicate k 'a' :=
    fun k => jsTrim_replicate k 'a' (by decide)
  have htne : ∀ k : Nat, 0 < k → jsTrim (List.replicate k 'a') ≠ [] := by
    intro k hk
    rw [hrep k]
    exact replicate_a_ne_nil k hk
  have hxlen : (jsTrim "x".data).length = 1 := by decide
  have hxne : ("x".data : List Char) ≠ [] := by decide
  have hxtne : jsTrim "x".data ≠ [] := by decide
  refine ⟨?_, ?_, ?_, ?_⟩
  · rw [validateNote_strings _ _ (replicate_a_ne_nil 200 (by norm_num)) hxne
      (htne 200 (by norm_num)) hxtne]
    simp only [hrep 200, List.length_replicate, hxlen]
    norm_num
  · rw [validateNote_strings _ _ (replicate_a_ne_nil 201 (by norm_num)) hxne
      (htne 201 (by norm_num)) hxtne]
    simp only [hrep 201, List.length_replicate, hxlen]
    norm_num
  · rw [validateNote_strings _ _ hxne (replicate_a_ne_nil 5000 (by norm_num)) hxtne
      (htne 5000 (by norm_num))]
    simp only [hrep 5000, List.length_replicate, hxlen]
    norm_num
  · rw [validateNote_strings _ _ hxne (replicate_a_ne_nil 5001 (by norm_num)) hxtne
      (htne 5001 (by norm_num))]
    simp only [hrep 5001, List.length_replicate, hxlen]
    norm_num

/-- C10: in `updateNote` the existence check precedes the no-fields check:
when no live note carries the id, the result is `NotFound` for every payload,
including one providing neither field — never `NoFieldsProvided`. -/
theorem updateNote_notFound_first (env : Env) (s : ServiceState) (id : Nat)
    (title content : Option JsValue)
    (h : s.notes.find? (fun n => n.id == id) = none) :
    updateNote env s id title content = .error .notFound := by
  simp [updateNote, h]

theorem updateNote_notFound_first_witness :
    updateNote idEnv ServiceState.initial 5 none none = .error .notFound :=
  updateNote_notFound_first idEnv ServiceState.initial 5 none none (by decide)

/-- C5: an update on an existing note whose payload has neither `title` nor
`content` present fails with `NoFieldsProvided` — whatever other keys the
payload carries — and the store is returned unchanged. -/
theorem updateNote_noFields (env : Env) (s : ServiceState) (id : Nat) (p : Payload)
    (n : Note) (hfind : s.notes.find? (fun m => m.id == id) = some n)
    (ht : p.title = none) (hc : p.content = none) :
    putRoute env s id p = (.error (.service .noFieldsProvided), s) := by
  simp [putRoute, updateNote, hfind, ht, hc, truthy]

theorem updateNote_noFields_witness :
    putRoute idEnv wStateA 7 ⟨none, none, 3⟩ =
      (.error (.service .noFieldsProvided), wStateA) :=
  updateNote_noFields idEnv wStateA 7 ⟨none, none, 3⟩ wNoteA (by decide) rfl rfl

instance {ε α : Type} [DecidableEq ε] [DecidableEq α] : DecidableEq (Except ε α)
  | .error e, .error f =>
    if h : e = f then .isTrue (by rw [h]) else .isFalse (by simp [h])
  | .error _, .ok _ => .isFalse (fun hc => Except.noConfusion hc)
  | .ok _, .error _ => .isFalse (fun hc => Except.noConfusion hc)
  | .ok a, .ok b =>
    if h : a = b then .isTrue (by rw [h]) else .isFalse (by simp [h])

/-- The value a field of an update ends up with: a provided string is stored
trimmed, anything else leaves the old value. -/
def appliedField (v : Option JsValue) (old : List Char) : List Char :=
  match v with
  | some (.str ts) => jsTrim ts
  | _ => old

theorem optTrim_ok_applied (v : Option JsValue) (t : Option (List Char)) (d : List Char)
    (h : optTrim v = .ok t) : appliedField v d = t.getD d := by
  match v with
  | none =>
    simp only [optTrim, Except.ok.injEq] at h
    simp [appliedField, ← h]
  | some .null =>
    simp only [optTrim, Except.ok.injEq] at h
    simp [appliedField, ← h]
  | some (.str ts) =>
    simp only [optTrim, Except.ok.injEq] at h
    simp [appliedField, ← h]
  | some (.bool b) => simp [optTrim] at h
  | some (.num m) => simp [optTrim] at h

/-- C4: a successful update of an existing note applies each provided field
(trimmed), keeps a non-provided field, keeps `id` and `createdAt`, stamps
`updatedAt` with the clock reading of the update, and stores exactly the
returned note; when that clock reading differs from the prior `updatedAt`
(the clock's resolution separates the two writes), the new `updatedAt` is
unequal to the old one. -/
theorem updateNote_frame (env : Env) (s : ServiceState) (id : Nat)
    (title content : Option JsValue) (n : Note) (r : RetVal) (s2 : ServiceState)
    (hfind : s.notes.find? (fun m => m.id == id) = some n)
    (hok : updateNote env s id title content = .ok (r, s2)) :
    ∃ n2 : Note,
      r = .snapshot n2 ∧
      n2.id = n.id ∧
      n2.createdAt = n.createdAt ∧
      n2.title = appliedField title n.title ∧
      n2.content = appliedField content n.content ∧
      n2.updatedAt = env.clock s.dateCalls ∧
      s2.notes.find? (fun m => m.id == id) = some n2 ∧
      (env.clock s.dateCalls ≠ n.updatedAt → n2.updatedAt ≠ n.updatedAt) := by
  simp only [updateNote, hfind] at hok
  by_cases hguard : (!truthy title && !truthy content) = true
  · rw [if_pos hguard] at hok
    simp at hok
  · rw [if_neg (by simpa using hguard)] at hok
    cases hot : optTrim title with
    | error e => rw [hot] at hok; simp at hok
    | ok t =>
      rw [hot] at hok
      cases hoc : optTrim content with
      | error e => rw [hoc] at hok; simp at hok
      | ok c =>
        rw [hoc] at hok
        simp only [Except.ok.injEq, Prod.mk.injEq] at hok
        obtain ⟨hr, hs2⟩ := hok
        refine ⟨Note.applyUpdate n t c (env.clock s.dateCalls), hr.symm, rfl, rfl, ?_, ?_, rfl,
          ?_, ?_⟩
        · rw [optTrim_ok_applied title t n.title hot]
          simp [Note.applyUpdate]
        · rw [optTrim_ok_applied content c n.content hoc]
          simp [Note.applyUpdate]
        · obtain ⟨l₁, l₂, hsplit, hnone, hupd⟩ :=
            updateFirst_of_find? (fun m => m.id == id)
              (fun m => Note.applyUpdate m t c (env.clock s.dateCalls)) hfind
          rw [← hs2]
          simp only [hupd]
          rw [List.find?_append]
          have hleft : l₁.find? (fun m => m.id == id) = none :=
            List.find?_eq_none.mpr (fun x hx => by simp [hnone x hx])
          have hpn : ((Note.applyUpdate n t c (env.clock s.dateCalls)).id == id) = true := by
            have := List.find?_some hfind
            simpa [Note.applyUpdate] using this
          rw [hleft]
          simp [List.find?_cons, hpn]
        · intro hne
          simpa [Note.applyUpdate] using hne

theorem updateNote_frame_witness :
    ∃ n2 : Note,
      RetVal.snapshot ⟨7, "T".data, "B".data, 0, 2⟩ = .snapshot n2 ∧
      n2.id = wNoteA.id ∧
      n2.createdAt = wNoteA.createdAt ∧
      n2.title = appliedField (some (.str " T ".data)) wNoteA.title ∧
      n2.content = appliedField none wNoteA.content ∧
      n2.updatedAt = idEnv.clock wStateA.dateCalls ∧
      (⟨[⟨7, "T".data, "B".data, 0, 2⟩], 3, 1⟩ : ServiceState).notes.find?
        (fun m => m.id == 7) = some n2 ∧
      (idEnv.clock wStateA.dateCalls ≠ wNoteA.updatedAt → n2.updatedAt ≠ wNoteA.updatedAt) :=
  updateNote_frame idEnv wStateA 7 (some (.str " T ".data)) none wNoteA
    (.snapshot ⟨7, "T".data, "B".data, 0, 2⟩) ⟨[⟨7, "T".data, "B".data, 0, 2⟩], 3, 1⟩
    (by decide) (by decide)

/-- C1 (amended): given a valid `(title, content)` pair within bounds and a
fresh generated id, `createNote` followed by `getNoteById` on the new id
returns a note carrying the trimmed inputs; its `createdAt` and `updatedAt`
are the two consecutive clock samples taken by the `Note` constructor, so
they are equal whenever the clock does not advance between those two
`new Date()` calls. -/
theorem create_then_get (env : Env) (s : ServiceState) (t c : List Char)
    (r : RetVal) (s2 : ServiceState)
    (htt : jsTrim t ≠ []) (hct : jsTrim c ≠ [])
    (htl : (jsTrim t).length ≤ 200) (hcl : (jsTrim c).length ≤ 5000)
    (hfresh : ∀ n ∈ s.notes, n.id ≠ env.uuid s.uuidCalls)
    (hok : createNote env s (some (.str t)) (some (.str c)) = .ok (r, s2)) :
    ∃ note : Note,
      getNoteById s2 (env.uuid s.uuidCalls) = .ok (.snapshot note) ∧
      note.title = jsTrim t ∧
      note.content = jsTrim c ∧
      note.createdAt = env.clock s.dateCalls ∧
      note.updatedAt = env.clock (s.dateCalls + 1) ∧
      (env.clock s.dateCalls = env.clock (s.dateCalls + 1) →
        note.createdAt = note.updatedAt) := by
  have htne : t ≠ [] := by
    intro h
    exact htt (by simp [h, jsTrim])
  have hcne : c ≠ [] := by
    intro h
    exact hct (by simp [h, jsTrim])
  have hg : (!truthy (some (.str t)) || !truthy (some (.str c))) = false := by
    simp [truthy, List.isEmpty_iff, htne, hcne]
  simp only [createNote, hg, Bool.false_eq_true, if_false, Except.ok.injEq,
    Prod.mk.injEq] at hok
  obtain ⟨hr, hs2⟩ := hok
  refine ⟨⟨env.uuid s.uuidCalls, jsTrim t, jsTrim c, env.clock s.dateCalls,
    env.clock (s.dateCalls + 1)⟩, ?_, rfl, rfl, rfl, rfl, fun h => h⟩
  rw [← hs2]
  simp only [getNoteById, List.find?_append]
  have hleft : s.notes.find? (fun n => n.id == env.uuid s.uuidCalls) = none :=
    List.find?_eq_none.mpr (fun x hx => by simp [hfresh x hx])
  rw [hleft]
  simp [List.find?_cons]

theorem create_then_get_witness :
    ∃ note : Note,
      getNoteById ⟨[⟨0, "A".data, "B".data, 0, 1⟩], 2, 1⟩ (idEnv.uuid 0) =
        .ok (.snapshot note) ∧
      note.title = jsTrim " A ".data ∧
      note.content = jsTrim "B".data ∧
      note.createdAt = idEnv.clock 0 ∧
      note.updatedAt = idEnv.clock 1 ∧
      (idEnv.clock 0 = idEnv.clock 1 → note.createdAt = note.updatedAt) :=
  create_then_get idEnv ServiceState.initial " A ".data "B".data (.ref 0)
    ⟨[⟨0, "A".data, "B".data, 0, 1⟩], 2, 1⟩ (by decide) (by decide) (by decide) (by decide)
    (by intro n hn; simp [ServiceState.initial] at hn) (by decide)

/-- The payload `{title: "A", content: "B"}`. -/
def c1Payload : Payload := ⟨some (.str "A".data), some (.str "B".data), 0⟩

/-- The note the store holds after `POST {title: "A", content: "B"}` on the
empty store under `idEnv`: the constructor's two `new Date()` calls sample
the clock at ticks 0 and 1. -/
def c1Note : Note := ⟨0, "A".data, "B".data, 0, 1⟩

/-- C1 counterexample: under a clock that advances between the constructor's
two `new Date()` calls (`idEnv` ticks once per call), create followed by get
returns a note whose `createdAt` differs from its `updatedAt` — the
constructor samples the clock twice instead of copying `createdAt`. -/
theorem create_timestamps_can_differ :
    getNoteById (postRoute idEnv ServiceState.initial c1Payload).2 0 =
      .ok (.snapshot c1Note) ∧
    c1Note.createdAt ≠ c1Note.updatedAt := by decide

/-- C8: once `deleteNote id` succeeds (ids in the store being distinct, as
uuid generation provides), a subsequent `getNoteById id` fails with
`NotFound`, and a second `deleteNote id` also fails with `NotFound`, the
route returning the store unchanged. -/
theorem delete_then_get_notFound (s : ServiceState) (id : Nat) (r : RetVal)
    (s2 : ServiceState)
    (hnodup : (s.notes.map Note.id).Nodup)
    (hdel : deleteNote s id = .ok (r, s2)) :
    getNoteById s2 id = .error .notFound ∧
    deleteNote s2 id = .error .notFound ∧
    delRoute s2 id = (.error (.service .notFound), s2) := by
  simp only [deleteNote] at hdel
  cases hrem : removeFirst (fun n => n.id == id) s.notes with
  | none => rw [hrem] at hdel; simp at hdel
  | some pr =>
    rw [hrem] at hdel
    obtain ⟨n, rest⟩ := pr
    simp only [Except.ok.injEq, Prod.mk.injEq] at hdel
    obtain ⟨hr, hs2⟩ := hdel
    obtain ⟨l₁, l₂, hsplit, hrest, hnone, hp⟩ := removeFirst_eq_some _ hrem
    have hid : n.id = id := by simpa using hp
    have hn2 : n.id ∉ l₂.map Note.id := by
      rw [hsplit, List.map_append, List.map_cons] at hnodup
      have hright := hnodup.of_append_right
      exact (List.nodup_cons.mp hright).1
    have hall : ∀ x ∈ rest, (x.id == id) = false := by
      rw [hrest]
      intro x hx
      rcases List.mem_append.mp hx with hx1 | hx2
      · exact hnone x hx1
      · have hxne : x.id ≠ n.id := fun he => hn2 (he ▸ List.mem_map_of_mem Note.id hx2)
        rw [hid] at hxne
        simp [hxne]
    have hfind : rest.find? (fun m => m.id == id) = none :=
      List.find?_eq_none.mpr (fun x hx => by simp [hall x hx])
    have hsnotes : s2.notes = rest := by rw [← hs2]
    refine ⟨?_, ?_, ?_⟩
    · simp [getNoteById, hsnotes, hfind]
    · simp [deleteNote, hsnotes, removeFirst_eq_none _ hall]
    · simp [delRoute, deleteNote, hsnotes, removeFirst_eq_none _ hall]

theorem delete_then_get_notFound_witness :
    getNoteById ⟨[⟨2, "C".data, "D".data, 2, 3⟩], 4, 2⟩ 1 = .error .notFound ∧
    deleteNote ⟨[⟨2, "C".data, "D".data, 2, 3⟩], 4, 2⟩ 1 = .error .notFound ∧
    delRoute ⟨[⟨2, "C".data, "D".data, 2, 3⟩], 4, 2⟩ 1 =
      (.error (.service .notFound), ⟨[⟨2, "C".data, "D".data, 2, 3⟩], 4, 2⟩) :=
  delete_then_get_notFound
    ⟨[⟨1, "A".data, "B".data, 0, 1⟩, ⟨2, "C".data, "D".data, 2, 3⟩], 4, 2⟩ 1
    (.snapshot ⟨1, "A".data, "B".data, 0, 1⟩) ⟨[⟨2, "C".data, "D".data, 2, 3⟩], 4, 2⟩
    (by decide) (by decide)

/-- C3 counterexample: the PUT path runs no validator, so an update whose
title is whitespace-only (hence empty after trimming) is not rejected: it
succeeds and stores the empty title — the state changes. -/
theorem update_whitespace_title_accepted :
    updateNote idEnv wStateA 7 (some (.str "   ".data)) none =
      .ok (.snapshot ⟨7, [], "B".data, 0, 2⟩, ⟨[⟨7, [], "B".data, 0, 2⟩], 3, 1⟩) := by
  decide

/-- C3 (amended): on update, either field may be omitted (leave unchanged),
but a present field is never re-validated: whenever the id exists, each field
is absent, null, or a string, and at least one field is truthy, the update
succeeds, storing each provided string trimmed — with no non-emptiness and no
length constraint on it. -/
theorem updateNote_accepts_any_present_string (env : Env) (s : ServiceState) (id : Nat)
    (n : Note) (title content : Option JsValue)
    (hfind : s.notes.find? (fun m => m.id == id) = some n)
    (htshape : title = none ∨ title = some .null ∨ ∃ ts, title = some (.str ts))
    (hcshape : content = none ∨ content = some .null ∨ ∃ cs, content = some (.str cs))
    (htruthy : (truthy title || truthy content) = true) :
    ∃ n2 s2, updateNote env s id title content = .ok (.snapshot n2, s2) ∧
      n2.title = appliedField title n.title ∧
      n2.content = appliedField content n.content := by
  have hguard : (!truthy title && !truthy content) = false := by
    cases h1 : truthy title <;> cases h2 : truthy content <;> simp_all
  simp only [updateNote, hfind, hguard, Bool.false_eq_true, if_false]
  rcases htshape with rfl | rfl | ⟨ts, rfl⟩ <;> rcases hcshape with rfl | rfl | ⟨cs, rfl⟩ <;>
    exact ⟨_, _, rfl, rfl, rfl⟩

theorem updateNote_accepts_any_present_string_witness :
    ∃ n2 s2, updateNote idEnv wStateA 7 (some (.str "   ".data)) none =
      .ok (.snapshot n2, s2) ∧
      n2.title = appliedField (some (.str "   ".data)) wNoteA.title ∧
      n2.content = appliedField none wNoteA.content :=
  updateNote_accepts_any_present_string idEnv wStateA 7 wNoteA
    (some (.str "   ".data)) none (by decide)
    (Or.inr (Or.inr ⟨"   ".data, rfl⟩)) (Or.inl rfl) (by decide)

/-! ### Reachability with blank-free updates (C2) -/

/-- Some live note is blank (empty or whitespace-only) in title or content. -/
def hasBlankNote (s : ServiceState) : Bool :=
  s.notes.any (fun n => (jsTrim n.title).isEmpty || (jsTrim n.content).isEmpty)

/-- Every live note has non-blank title and content. -/
def goodNotesB (s : ServiceState) : Bool :=
  s.notes.all (fun n => !(jsTrim n.title).isEmpty && !(jsTrim n.content).isEmpty)

/-- An update payload whose provided string fields are non-blank after
trimming. -/
def TamePayload (p : Payload) : Prop :=
  (∀ ts, p.title = some (.str ts) → jsTrim ts ≠ []) ∧
  (∀ cs, p.content = some (.str cs) → jsTrim cs ≠ [])

/-- Reachability through the public HTTP surface when every PUT carries only
non-blank provided fields. -/
inductive ReachableTame (env : Env) : ServiceState → Prop where
  | init : ReachableTame env ServiceState.initial
  | post (p : Payload) {s : ServiceState} : ReachableTame env s →
      ReachableTame env (postRoute env s p).2
  | put (id : Nat) (p : Payload) {s : ServiceState} : TamePayload p →
      ReachableTame env s → ReachableTame env (putRoute env s id p).2
  | del (id : Nat) {s : ServiceState} : ReachableTame env s →
      ReachableTame env (delRoute s id).2

theorem createNote_ok (env : Env) (s : ServiceState) (t c : List Char)
    (htne : t ≠ []) (hcne : c ≠ []) :
    createNote env s (some (.str t)) (some (.str c)) =
      .ok (.ref s.notes.length,
        ⟨s.notes ++ [⟨env.uuid s.uuidCalls, jsTrim t, jsTrim c, env.clock s.dateCalls,
          env.clock (s.dateCalls + 1)⟩], s.dateCalls + 2, s.uuidCalls + 1⟩) := by
  have hg : (!truthy (some (.str t)) || !truthy (some (.str c))) = false := by
    simp [truthy, List.isEmpty_iff, htne, hcne]
  simp only [createNote, hg, Bool.false_eq_true, if_false]

theorem optTrim_ok_some {v : Option JsValue} {x : List Char}
    (h : optTrim v = .ok (some x)) : ∃ ts, v = some (.str ts) ∧ x = jsTrim ts := by
  match v with
  | none => simp [optTrim] at h
  | some .null => simp [optTrim] at h
  | some (.str ts) =>
    simp only [optTrim, Except.ok.injEq, Option.some.injEq] at h
    exact ⟨ts, rfl, h.symm⟩
  | some (.bool b) => simp [optTrim] at h
  | some (.num m) => simp [optTrim] at h

theorem tame_invariant {env : Env} {s : ServiceState} (h : ReachableTame env s) :
    ∀ n ∈ s.notes, jsTrim n.title ≠ [] ∧ jsTrim n.content ≠ [] := by
  induction h with
  | init => intro n hn; simp [ServiceState.initial] at hn
  | post p hs ih =>
    rename_i s'
    rcases p with ⟨pt, pc, pk⟩
    cases hv : validateNote ⟨pt, pc, pk⟩ with
    | some e =>
      intro n hn
      simp only [postRoute, hv] at hn
      exact ih n hn
    | none =>
      rcases validateNote_none_fields hv with ⟨hft, hfc⟩
      obtain ⟨t, hteq, htne, htt⟩ := invalidField_eq_false hft
      obtain ⟨c, hceq, hcne, hct⟩ := invalidField_eq_false hfc
      have hteq2 : pt = some (.str t) := hteq
      have hceq2 : pc = some (.str c) := hceq
      subst hteq2 hceq2
      intro n hn
      simp only [postRoute, hv, createNote_ok env s' t c htne hcne] at hn
      rcases List.mem_append.mp hn with hmem | hnew
      · exact ih n hmem
      · simp only [List.mem_singleton] at hnew
        subst hnew
        exact ⟨by rw [jsTrim_idem]; exact htt, by rw [jsTrim_idem]; exact hct⟩
  | put id p htame hs ih =>
    rename_i s'
    intro n hn
    simp only [putRoute] at hn
    cases hup : updateNote env s' id p.title p.content with
    | error e =>
      simp only [hup] at hn
      exact ih n hn
    | ok pr =>
      simp only [hup] at hn
      obtain ⟨r2, s2⟩ := pr
      simp only [updateNote] at hup
      cases hf : s'.notes.find? (fun m => m.id == id) with
      | none => rw [hf] at hup; simp at hup
      | some m =>
        simp only [hf] at hup
        by_cases hguard : (!truthy p.title && !truthy p.content) = true
        · rw [if_pos hguard] at hup; simp at hup
        · rw [if_neg hguard] at hup
          cases hot : optTrim p.title with
          | error e => rw [hot] at hup; simp at hup
          | ok t =>
            simp only [hot] at hup
            cases hoc : optTrim p.content with
            | error e => rw [hoc] at hup; simp at hup
            | ok c =>
              simp only [hoc] at hup
              simp only [Except.ok.injEq, Prod.mk.injEq] at hup
              obtain ⟨hr2, hs2⟩ := hup
              rw [← hs2] at hn
              rcases mem_updateFirst _ _ hn with hmem | ⟨a, ha, rfl⟩
              · exact ih n hmem
              · have hia := ih a ha
                constructor
                · cases t with
                  | none => simpa [Note.applyUpdate] using hia.1
                  | some x =>
                    obtain ⟨ts, hts, rfl⟩ := optTrim_ok_some hot
                    have : jsTrim ts ≠ [] := htame.1 ts hts
                    simpa [Note.applyUpdate, jsTrim_idem] using this
                · cases c with
                  | none => simpa [Note.applyUpdate] using hia.2
                  | some x =>
                    obtain ⟨cs, hcs, rfl⟩ := optTrim_ok_some hoc
                    have : jsTrim cs ≠ [] := htame.2 cs hcs
                    simpa [Note.applyUpdate, jsTrim_idem] using this
  | del id hs ih =>
    rename_i s'
    intro n hn
    simp only [delRoute] at hn
    cases hd : deleteNote s' id with
    | error e =>
      simp only [hd] at hn
      exact ih n hn
    | ok pr =>
      simp only [hd] at hn
      obtain ⟨r2, s2⟩ := pr
      simp only [deleteNote] at hd
      cases hrem : removeFirst (fun m => m.id == id) s'.notes with
      | none => rw [hrem] at hd; simp at hd
      | some pr2 =>
        simp only [hrem] at hd
        obtain ⟨m, rest⟩ := pr2
        simp only [Except.ok.injEq, Prod.mk.injEq] at hd
        obtain ⟨_, hs2⟩ := hd
        rw [← hs2] at hn
        obtain ⟨l₁, l₂, hsplit, hrest, _, _⟩ := removeFirst_eq_some _ hrem
        apply ih
        rw [hsplit]
        rw [hrest] at hn
        rcases List.mem_append.mp hn with h1 | h2
        · exact List.mem_append.mpr (Or.inl h1)
        · exact List.mem_append.mpr (Or.inr (List.mem_cons_of_mem m h2))

/-- C2 (amended): along every run of the public surface in which each PUT
provides only non-blank fields, every live note keeps a non-empty,
non-whitespace-only title and content; create (validated), get, list and
delete always preserve the invariant — only a PUT with a blank provided
field can break it. -/
theorem reachableTame_no_blank_fields (env : Env) (s : ServiceState)
    (h : ReachableTame env s) : goodNotesB s = true := by
  rw [goodNotesB, List.all_eq_true]
  intro n hn
  have hgood := tame_invariant h n hn
  simp [List.isEmpty_iff, hgood.1, hgood.2]

theorem reachableTame_no_blank_fields_witness :
    goodNotesB (postRoute idEnv ServiceState.initial c1Payload).2 = true :=
  reachableTame_no_blank_fields idEnv _ (ReachableTame.post c1Payload ReachableTame.init)

/-- The whitespace-only update payload `{title: "   "}`. -/
def cexWsPayload : Payload := ⟨some (.str "   ".data), none, 0⟩

/-- The state after `POST {title:"A",content:"B"}` then `PUT {title:"   "}`
on the created note. -/
def c2BadState : ServiceState :=
  (putRoute idEnv (postRoute idEnv ServiceState.initial c1Payload).2 0 cexWsPayload).2

/-- C2 counterexample: a state reachable through the public surface in which
a live note has an empty title — the PUT path accepts a whitespace-only
title (truthy, so it passes the only check) and stores it trimmed to "". -/
theorem put_reaches_blank_title :
    Reachable idEnv c2BadState ∧ hasBlankNote c2BadState = true := by
  constructor
  · exact Reachable.put 0 cexWsPayload (Reachable.post c1Payload Reachable.init)
  · decide

/-! ### Snapshot vs. live reference (C9) -/

theorem updateNote_ok_snapshot {env : Env} {s : ServiceState} {id : Nat}
    {title content : Option JsValue} {r : RetVal} {s2 : ServiceState}
    (h : updateNote env s id title content = .ok (r, s2)) :
    ∃ n2, r = .snapshot n2 := by
  simp only [updateNote] at h
  cases hf : s.notes.find? (fun m => m.id == id) with
  | none => rw [hf] at h; simp at h
  | some m =>
    simp only [hf] at h
    by_cases hguard : (!truthy title && !truthy content) = true
    · rw [if_pos hguard] at h; simp at h
    · rw [if_neg hguard] at h
      cases hot : optTrim title with
      | error e => rw [hot] at h; simp at h
      | ok t =>
        simp only [hot] at h
        cases hoc : optTrim content with
        | error e => rw [hoc] at h; simp at h
        | ok c =>
          simp only [hoc, Except.ok.injEq, Prod.mk.injEq] at h
          exact ⟨_, h.1.symm⟩

theorem deleteNote_ok_snapshot {s : ServiceState} {id : Nat} {r : RetVal}
    {s2 : ServiceState} (h : deleteNote s id = .ok (r, s2)) :
    ∃ n2, r = .snapshot n2 := by
  simp only [deleteNote] at h
  cases hrem : removeFirst (fun n => n.id == id) s.notes with
  | none => rw [hrem] at h; simp at h
  | some pr =>
    obtain ⟨m, rest⟩ := pr
    simp only [hrem, Except.ok.injEq, Prod.mk.injEq] at h
    exact ⟨m, h.1.symm⟩

/-- C9 (amended): `getAllNotes`, `getNoteById`, `updateNote` and `deleteNote`
return `toJSON()` snapshots — mutating any value they return leaves the store
exactly as it was; only `createNote` returns the live stored object. -/
theorem non_create_returns_are_snapshots :
    (∀ (s : ServiceState) (id : Nat) (r : RetVal),
      getNoteById s id = .ok r → ∀ t, assignTitle r t s = s) ∧
    (∀ (s : ServiceState) (r : RetVal),
      r ∈ getAllNotes s → ∀ t, assignTitle r t s = s) ∧
    (∀ (env : Env) (s : ServiceState) (id : Nat) (title content : Option JsValue)
      (r : RetVal) (s2 : ServiceState),
      updateNote env s id title content = .ok (r, s2) → ∀ t, assignTitle r t s2 = s2) ∧
    (∀ (s : ServiceState) (id : Nat) (r : RetVal) (s2 : ServiceState),
      deleteNote s id = .ok (r, s2) → ∀ t, assignTitle r t s2 = s2) := by
  refine ⟨?_, ?_, ?_, ?_⟩
  · intro s id r h t
    simp only [getNoteById] at h
    cases hf : s.notes.find? (fun n => n.id == id) with
    | none => rw [hf] at h; simp at h
    | some n =>
      simp only [hf, Except.ok.injEq] at h
      rw [← h]
      rfl
  · intro s r h t
    simp only [getAllNotes, List.mem_map] at h
    obtain ⟨n, _, rfl⟩ := h
    rfl
  · intro env s id title content r s2 h t
    obtain ⟨n2, rfl⟩ := updateNote_ok_snapshot h
    rfl
  · intro s id r s2 h t
    obtain ⟨n2, rfl⟩ := deleteNote_ok_snapshot h
    rfl

theorem non_create_returns_are_snapshots_witness :
    assignTitle (RetVal.snapshot wNoteA) "X".data wStateA = wStateA :=
  non_create_returns_are_snapshots.1 wStateA 7 (RetVal.snapshot wNoteA) (by decide) "X".data

/-- C9 counterexample: `createNote` hands back the very object it pushed
(`return note`), so assigning to the returned value's `title` rewrites the
store's own record, and the next `getNoteById` observes the new value — the
create return is not a decoupled snapshot. -/
theorem create_returns_live_reference :
    createNote idEnv ServiceState.initial (some (.str "A".data)) (some (.str "B".data)) =
      .ok (.ref 0, ⟨[⟨0, "A".data, "B".data, 0, 1⟩], 2, 1⟩) ∧
    assignTitle (.ref 0) "X".data ⟨[⟨0, "A".data, "B".data, 0, 1⟩], 2, 1⟩ =
      ⟨[⟨0, "X".data, "B".data, 0, 1⟩], 2, 1⟩ ∧
    getNoteById ⟨[⟨0, "X".data, "B".data, 0, 1⟩], 2, 1⟩ 0 =
      .ok (.snapshot ⟨0, "X".data, "B".data, 0, 1⟩) ∧
    getNoteById ⟨[⟨0, "X".data, "B".data, 0, 1⟩], 2, 1⟩ 0 ≠
      getNoteById ⟨[⟨0, "A".data, "B".data, 0, 1⟩], 2, 1⟩ 0 := by
  decide
